import Mathlib

/-!
Verification of the MagicSlide slide/image matching, extraction,
sanitization and rate limiting code.

Conventions of the shallow embedding:
* JavaScript numbers are modeled as exact rationals (`ℚ`) for scores and
  as `Nat`/`Int` for counters and timestamps.
* JavaScript strings are Lean `String`s; character-level scanning code
  works on `List Char`.
* `String.prototype.includes` is modeled by infix testing on the
  character lists.
* ASCII lowercasing (`String.toLower`) models `toLowerCase`.
-/

/-- One Pixabay image hit, as declared in `lib/messages.ts` /
`lib/pixabay.ts` (`PixabayImageHit`).  Only fields of simple scalar or
string type; URLs are strings. -/
structure PixabayImageHit where
  id : Nat
  pageURL : String
  type : String
  tags : String
  previewURL : String
  previewWidth : Nat
  previewHeight : Nat
  webformatURL : String
  webformatWidth : Nat
  webformatHeight : Nat
  largeImageURL : String
  imageWidth : Nat
  imageHeight : Nat
  imageSize : Nat
  views : Nat
  downloads : Nat
  collections : Nat
  likes : Nat
  comments : Nat
  user_id : Nat
  user : String
  userImageURL : String
deriving Repr, DecidableEq

/-- Slide type tag: `'cover' | 'content' | 'conclusion'`. -/
inductive SlideType where
  | cover
  | content
  | conclusion
deriving Repr, DecidableEq

/-- `SlideContent` from `slide-image-matcher` (part_016): title, plain
text content, document index and the optional type tag. -/
structure SlideContent where
  title : String
  content : String
  index : Int
  type : Option SlideType
deriving Repr, DecidableEq

/-- `ImageSearchQuery` from `slide-image-matcher` (part_016). -/
structure ImageSearchQuery where
  q : String
  imageType : Option String
  orientation : Option String
  minWidth : Option Nat
  minHeight : Option Nat
  editorsChoice : Option Bool
deriving Repr, DecidableEq

/-- The `result` payload of one search: `{ total, totalHits, hits }`. -/
structure SearchPayload where
  total : Nat
  totalHits : Nat
  hits : List PixabayImageHit
deriving Repr, DecidableEq

/-- `ImageSearchResult` from `slide-image-matcher` (part_016). -/
structure ImageSearchResult where
  query : String
  result : SearchPayload
deriving Repr, DecidableEq

/-- Decide whether `pat` occurs as a contiguous run inside `s`, scanning
start positions left to right. -/
def occursAt : List Char → List Char → Bool
  | pat, [] => pat.isEmpty
  | pat, s@(_ :: rest) => pat.isPrefixOf s || occursAt pat rest

/-- Model of JavaScript `s.includes(pat)`: `pat` occurs as a contiguous
substring of `s`. -/
def jsIncludes (s pat : String) : Bool :=
  occursAt pat.toList s.toList

/-- `scoreImageForSlide` from part_016 lines 145-185, translated
statement by statement.  The mutable `score` accumulator becomes a
chain of `let` bindings, and the `forEach` over the split tag list
becomes a left fold. -/
def scoreImageForSlide (image : PixabayImageHit) (slide : SlideContent)
    (query : String) : ℚ :=
  let score : ℚ := 0
  -- Base score from Pixabay metrics
  let score := score + min ((image.likes : ℚ) / 100) 10
  let score := score + min ((image.downloads : ℚ) / 1000) 5
  -- Image quality and dimensions
  let score :=
    if 1920 ≤ image.imageWidth ∧ 1080 ≤ image.imageHeight then score + 5
    else if 1280 ≤ image.imageWidth ∧ 720 ≤ image.imageHeight then score + 3
    else score
  -- Image type bonus
  let score :=
    if slide.type = some SlideType.cover ∧ image.imageHeight < image.imageWidth then
      score + 5
    else score
  -- Content relevance
  let combinedText := (slide.title ++ " " ++ slide.content).toLower
  let imageTags := (image.tags.toLower.splitOn ",").map String.trim
  let score := imageTags.foldl
    (fun s tag => if jsIncludes combinedText tag then s + 2 else s) score
  -- Query match bonus
  let score :=
    if jsIncludes image.tags.toLower query.toLower then score + 3 else score
  score

/-- One scored candidate: the `{ hit, query, score }` records built in
`matchImagesToSlides` (part_016 lines 207-211). -/
structure ScoredImage where
  hit : PixabayImageHit
  query : String
  score : ℚ
deriving Repr, DecidableEq

/-- Scored candidates for one slide: flatten all hits with their
originating query, score them, sort descending by score (JavaScript
`sort` is stable, modeled by `mergeSort`), and keep the first 5
(part_016 lines 199-216). -/
def topImagesForSlide (slide : SlideContent)
    (imageResults : List ImageSearchResult) : List ScoredImage :=
  let allImages := imageResults.flatMap fun result =>
    result.result.hits.map fun hit => (hit, result.query)
  let scoredImages := allImages.map fun p =>
    ScoredImage.mk p.1 p.2 (scoreImageForSlide p.1 slide p.2)
  (scoredImages.mergeSort fun a b => b.score ≤ a.score).take 5

/-- Model of JavaScript `Array.from(new Set(l))`: keep the first
occurrence of each element, in order.  `seen` holds the elements already
emitted. -/
def jsSetDedupAux (seen : List String) : List String → List String
  | [] => []
  | a :: l =>
    if a ∈ seen then jsSetDedupAux seen l
    else a :: jsSetDedupAux (a :: seen) l

/-- Model of JavaScript `Array.from(new Set(l))`. -/
def jsSetDedup (l : List String) : List String :=
  jsSetDedupAux [] l

/-- `SlideWithImages` from part_016: the slide fields plus the suggested
images and the distinct originating queries. -/
structure SlideWithImages where
  title : String
  content : String
  index : Int
  type : Option SlideType
  suggestedImages : List PixabayImageHit
  searchQueries : List String
deriving Repr, DecidableEq

/-- `matchImagesToSlides` from part_016 lines 193-228. -/
def matchImagesToSlides (slides : List SlideContent)
    (imageResults : List ImageSearchResult) : List SlideWithImages :=
  slides.map fun slide =>
    let topImages := topImagesForSlide slide imageResults
    SlideWithImages.mk slide.title slide.content slide.index slide.type
      (topImages.map (·.hit))
      (jsSetDedup (topImages.map (·.query)))

/-- The deduplication filter applied to the flattened query lists in
`generateQueriesForPresentation` (part_016 lines 291-293) and in the
match-images route (route.ts lines 49-51): keep a query exactly when its
index is the first index holding the same `q`. -/
def uniqueQueries (l : List ImageSearchQuery) : List ImageSearchQuery :=
  (l.enum.filter fun p => l.findIdx (fun q => q.q == p.2.q) == p.1).map Prod.snd

/-- The in-memory request log `requestLog`: a JavaScript object mapping
a client identifier (IP string) to its recorded timestamps.  A missing
key reads as the empty list, so the object is modeled as a total
function. -/
def RequestLog : Type := String → List Int

/-- The initial (empty) request log. -/
def emptyLog : RequestLog := fun _ => []

/-- Store a timestamp list under one identifier. -/
def logSet (log : RequestLog) (ip : String) (l : List Int) : RequestLog :=
  fun x => if x = ip then l else log x

/-- `RATE_LIMIT = 100` requests per window (part_000 line 5 and
limit/route.ts). -/
def RATE_LIMIT : Nat := 100

/-- `RATE_WINDOW = 60 * 1000` milliseconds (part_000 line 6 and
limit/route.ts). -/
def RATE_WINDOW : Int := 60 * 1000

/-- `isRateLimited` from the Wikimedia batch route (part_000 lines
23-43): prune entries older than the window, reject when the pruned log
has reached `RATE_LIMIT`, otherwise append the current timestamp.
Returns the decision together with the updated log. -/
def isRateLimited (now : Int) (ip : String) (log : RequestLog) :
    Bool × RequestLog :=
  let pruned := (log ip).filter fun timestamp => now - timestamp < RATE_WINDOW
  if RATE_LIMIT ≤ pruned.length then
    (true, logSet log ip pruned)
  else
    (false, logSet log ip (pruned ++ [now]))

/-- `cleanupRequestLog` from limit/route.ts (Pixabay batch): prune every
identifier's log.  Deleting an identifier whose pruned list is empty is
the identity in the total-function model. -/
def cleanupRequestLog (now : Int) (log : RequestLog) : RequestLog :=
  fun ip => (log ip).filter fun timestamp => now - timestamp < RATE_WINDOW

/-- `isRateLimited` from limit/route.ts lines 77-95 (Pixabay batch
variant): the whole batch of `count` queries is charged at once; reject
when adding them would exceed `RATE_LIMIT`, otherwise push `count`
timestamps. -/
def pixabayIsRateLimited (now : Int) (ip : String) (count : Nat)
    (log : RequestLog) : Bool × RequestLog :=
  let cleaned := cleanupRequestLog now log
  if RATE_LIMIT < (cleaned ip).length + count then
    (true, cleaned)
  else
    (false, logSet cleaned ip (cleaned ip ++ List.replicate count now))

/-- Process a sequence of requests from one identifier through
`isRateLimited`, collecting the decisions and the final log. -/
def runRequests (ip : String) : List Int → RequestLog → List Bool × RequestLog
  | [], log => ([], log)
  | t :: ts, log =>
    let r := isRateLimited t ip log
    let rs := runRequests ip ts r.2
    (r.1 :: rs.1, rs.2)

/-- `WikimediaSearchParams` from the wikimedia library (part_017). -/
structure WikimediaSearchParams where
  keyword : String
  limit : Nat
  imageType : Option String
  orientation : Option String
deriving Repr, DecidableEq

/-- A normalized Wikimedia Commons image (part_017, string and numeric
fields only). -/
structure WikimediaImage where
  url : String
  title : String
deriving Repr, DecidableEq

/-- The search response returned by `searchWikimediaImages`:
`{ total, images }`. -/
structure WikimediaSearchResponse where
  images : List WikimediaImage
  total : Nat
deriving Repr, DecidableEq

/-- One query of a batch request body (part_000 lines 9-16). -/
structure WikimediaBatchQuery where
  q : String
  limit : Option Nat
  imageType : Option String
  orientation : Option String
deriving Repr, DecidableEq

/-- One entry of the batch response array: either a successful
`{ query, result }` pair or the `{ query, error }` object produced by
the per-query `catch` (part_000 lines 90-98). -/
inductive BatchEntry where
  | ok (query : String) (result : WikimediaSearchResponse)
  | err (query : String) (message : String)
deriving Repr, DecidableEq

/-- Whether a batch entry is an error marker rather than a result. -/
def isErrEntry : BatchEntry → Bool
  | BatchEntry.ok _ _ => false
  | BatchEntry.err _ _ => true

/-- HTTP response of the batch handler: status code plus the entries of
the JSON array (empty for error statuses). -/
structure BatchResponse where
  status : Nat
  entries : List BatchEntry
deriving Repr, DecidableEq

/-- Parameter conversion of part_000 lines 82-87.  JavaScript
`query.limit || 5` treats 0 as absent. -/
def wikimediaQueryParams (query : WikimediaBatchQuery) : WikimediaSearchParams :=
  { keyword := query.q
    limit := match query.limit with
      | some n => if n = 0 then 5 else n
      | none => 5
    imageType := query.imageType
    orientation := query.orientation }

/-- The Wikimedia batch `POST` handler (part_000 lines 52-119).  The
outbound `searchWikimediaImages` call is passed in as a function
returning either a response or an error message; each query's promise
carries its own `catch`, so `Promise.all` always resolves and the
handler answers 200 with one entry per (sliced) query. -/
def wikimediaBatchPOST
    (search : WikimediaSearchParams → Except String WikimediaSearchResponse)
    (now : Int) (ip : String) (log : RequestLog)
    (queries : List WikimediaBatchQuery) : BatchResponse × RequestLog :=
  let r := isRateLimited now ip log
  if r.1 then (BatchResponse.mk 429 [], r.2)
  else if queries.isEmpty then (BatchResponse.mk 400 [], r.2)
  else
    let entries := (queries.take 10).map fun query =>
      match search (wikimediaQueryParams query) with
      | Except.ok result => BatchEntry.ok query.q result
      | Except.error e => BatchEntry.err query.q e
    (BatchResponse.mk 200 entries, r.2)

/-- The slide opening marker `<section` of the extraction regex
`/<section[^>]*>([\s\S]*?)<\/section>/g` (part_016 line 239). -/
def secOpen : List Char := ['<', 's', 'e', 'c', 't', 'i', 'o', 'n']

/-- The closing tag `</section>` of the extraction regex. -/
def secClose : List Char := ['<', '/', 's', 'e', 'c', 't', 'i', 'o', 'n', '>']

/-- Index of the first occurrence of `pat` in a character list (leftmost
regex match position). -/
def findSubstrIdx (pat : List Char) : List Char → Option Nat
  | [] => if pat = [] then some 0 else none
  | s@(_ :: rest) =>
    if pat.isPrefixOf s then some 0
    else (findSubstrIdx pat rest).map (· + 1)

/-- Index of the first occurrence of a character. -/
def findCharIdx (c : Char) : List Char → Option Nat
  | [] => none
  | d :: rest => if d = c then some 0 else (findCharIdx c rest).map (· + 1)

/-- One `exec` step of the slide regex: find `<section`, the greedy
`[^>]*>` ends at the first `>` after it, and the lazy body ends at the
first `</section>` after that.  Returns the captured body and the text
after the match.  When the leftmost `<section` cannot be completed to a
full match no later start can either, so the whole scan fails. -/
def splitFirstSection (s : List Char) : Option (List Char × List Char) :=
  match findSubstrIdx secOpen s with
  | none => none
  | some i =>
    let after := s.drop (i + 8)
    match findCharIdx '>' after with
    | none => none
    | some j =>
      let afterTag := after.drop (j + 1)
      match findSubstrIdx secClose afterTag with
      | none => none
      | some k => some (afterTag.take k, afterTag.drop (k + 10))

/-- The digit class `[1-3]` of the title regex
`/<h[1-3][^>]*>(.*?)<\/h[1-3]>/` (part_016 line 247). -/
def headingDigit (c : Char) : Bool :=
  c = '1' || c = '2' || c = '3'

/-- JavaScript line terminators, which `.` does not match. -/
def lineTerminator (c : Char) : Bool :=
  c = '\n' || c = '\r' || c = '\u2028' || c = '\u2029'

/-- Match a closing `</h[1-3]>` tag at the head of the list, returning
the remainder. -/
def closeHeadAt (s : List Char) : Option (List Char) :=
  match s with
  | '<' :: '/' :: 'h' :: d :: '>' :: rest =>
    if headingDigit d then some rest else none
  | _ => none

/-- The lazy group `(.*?)` of the title regex: extend the captured text
one character at a time, trying the closing tag first; `.` refuses line
terminators.  Returns the captured text and the number of characters
consumed including the 5-character closing tag. -/
def lazyScanHeading (acc : List Char) (consumed : Nat) :
    List Char → Option (List Char × Nat)
  | [] => none
  | s@(c :: rest) =>
    match closeHeadAt s with
    | some _ => some (acc.reverse, consumed + 5)
    | none =>
      if lineTerminator c then none
      else lazyScanHeading (c :: acc) (consumed + 1) rest

/-- Match the full title regex at the head of the list: `<h`, a digit
1-3, the greedy `[^>]*>` up to the first `>`, then the lazy body up to a
closing `</h[1-3]>`.  Returns the captured body and the total length of
the match. -/
def matchHeadingAt (s : List Char) : Option (List Char × Nat) :=
  match s with
  | '<' :: 'h' :: d :: rest =>
    if headingDigit d then
      match findCharIdx '>' rest with
      | none => none
      | some j =>
        match lazyScanHeading [] 0 (rest.drop (j + 1)) with
        | none => none
        | some r => some (r.1, 3 + (j + 1) + r.2)
    else none
  | _ => none

/-- First match of the title regex anywhere in the list (JavaScript
`String.prototype.match`, non-global): captured heading text. -/
def findFirstHeading : List Char → Option (List Char)
  | [] => none
  | s@(_ :: rest) =>
    match matchHeadingAt s with
    | some r => some r.1
    | none => findFirstHeading rest

/-- Global removal of `/<h[1-3][^>]*>.*?<\/h[1-3]>/g` (part_016 line
251): each leftmost match is dropped and scanning resumes after it. -/
def removeHeadings : List Char → List Char
  | [] => []
  | c :: rest =>
    match h : matchHeadingAt (c :: rest) with
    | some r => removeHeadings ((c :: rest).drop r.2)
    | none => c :: removeHeadings rest
termination_by s => s.length
decreasing_by
  · have hpos : 0 < r.2 := by
      simp only [matchHeadingAt] at h
      split at h
      · split at h
        · split at h
          · exact absurd h (by simp)
          · split at h
            · exact absurd h (by simp)
            · rcases Option.some.inj h with rfl
              omega
        · exact absurd h (by simp)
      · exact absurd h (by simp)
    simp only [List.length_drop, List.length_cons]
    omega
  · simp only [List.length_cons]
    omega

/-- Global replacement of `/<[^>]*>/g` (tag stripping) by `repl`: a `<`
with no later `>` starts no match and is kept verbatim, and then nothing
after it can match either. -/
def stripTagsWith (repl : List Char) : List Char → List Char
  | [] => []
  | '<' :: rest =>
    match findCharIdx '>' rest with
    | some j => repl ++ stripTagsWith repl (rest.drop (j + 1))
    | none => '<' :: rest
  | c :: rest => c :: stripTagsWith repl rest
termination_by s => s.length
decreasing_by
  · simp only [List.length_drop, List.length_cons]
    omega
  · simp only [List.length_cons]
    omega

/-- The JavaScript `\s` character class (whitespace as used by
`/\s+/g` and `trim`). -/
def jsWhitespace (c : Char) : Bool :=
  let n := c.toNat
  n = 32 || n = 9 || n = 10 || n = 11 || n = 12 || n = 13 ||
  n = 0xa0 || n = 0x1680 || (0x2000 ≤ n && n ≤ 0x200a) ||
  n = 0x2028 || n = 0x2029 || n = 0x202f || n = 0x205f ||
  n = 0x3000 || n = 0xfeff

/-- Global replacement of `/\s+/g` by a single space. -/
def collapseWs : List Char → List Char
  | [] => []
  | c :: rest =>
    if jsWhitespace c then ' ' :: collapseWs (rest.dropWhile jsWhitespace)
    else c :: collapseWs rest
termination_by s => s.length
decreasing_by
  · have := (List.dropWhile_suffix (l := rest) jsWhitespace).sublist.length_le
    simp only [List.length_cons]
    omega
  · simp only [List.length_cons]
    omega

/-- JavaScript `String.prototype.trim`: strip `\s` characters from both
ends. -/
def jsTrim (s : List Char) : List Char :=
  ((s.dropWhile jsWhitespace).reverse.dropWhile jsWhitespace).reverse

/-- Build one `SlideContent` from the captured body of a section match
(the loop body of `extractSlidesFromHTML`, part_016 lines 244-271). -/
def slideFromSection (slideContent : List Char) (index : Nat) : SlideContent :=
  let title :=
    match findFirstHeading slideContent with
    | some inner => stripTagsWith [] inner
    | none => ("Slide " ++ toString (index + 1)).toList
  let content := jsTrim (collapseWs (stripTagsWith [' '] (removeHeadings slideContent)))
  let contentLower := content.map Char.toLower
  let slideType : SlideType :=
    if index = 0 then SlideType.cover
    else if occursAt "conclusion".toList contentLower
        || occursAt "summary".toList contentLower
        || occursAt "thank you".toList contentLower then SlideType.conclusion
    else SlideType.content
  SlideContent.mk (String.mk title) (String.mk content) (index : Int) (some slideType)

/-- The `while ((match = slideRegex.exec(html)) !== null)` loop of
`extractSlidesFromHTML` (part_016 lines 243-274). -/
def extractLoop (s : List Char) (index : Nat) : List SlideContent :=
  match h : splitFirstSection s with
  | none => []
  | some r => slideFromSection r.1 index :: extractLoop r.2 (index + 1)
termination_by s.length
decreasing_by
  cases s with
  | nil => simp [splitFirstSection, findSubstrIdx, secOpen] at h
  | cons c cs =>
    simp only [splitFirstSection] at h
    split at h
    · exact absurd h (by simp)
    · split at h
      · exact absurd h (by simp)
      · split at h
        · exact absurd h (by simp)
        · rcases Option.some.inj h with rfl
          simp only [List.length_drop, List.length_cons]
          omega

/-- `extractSlidesFromHTML` from part_016 lines 235-277. -/
def extractSlidesFromHTML (html : String) : List SlideContent :=
  extractLoop html.toList 0

/-- Spec-side definition following the claim's words: the number of
top-level `<section>` elements of a document, counting section openings
encountered at nesting depth zero while tracking the depth through
`<section`/`</section>` markers. -/
def specTopLevelCountAux : List Char → Nat → Nat
  | [], _ => 0
  | s@(_ :: rest), depth =>
    if secClose.isPrefixOf s then specTopLevelCountAux rest (depth - 1)
    else if secOpen.isPrefixOf s then
      (if depth = 0 then 1 else 0) + specTopLevelCountAux rest (depth + 1)
    else specTopLevelCountAux rest depth

/-- Spec-side definition following the claim's words: number of
top-level section elements of an HTML document string. -/
def specTopLevelSectionCount (html : String) : Nat :=
  specTopLevelCountAux html.toList 0

/-- A well-formed section block used to describe documents whose
sections are not nested: leading text (no `<section` occurrence), an
attribute run without `>`, and a body containing neither section
marker. -/
structure SecBlock where
  pre : List Char
  attrs : List Char
  content : List Char

/-- Render a list of section blocks followed by trailing text. -/
def renderBlocks : List SecBlock → List Char → List Char
  | [], tail => tail
  | b :: bs, tail =>
    b.pre ++ secOpen ++ b.attrs ++ ('>' :: b.content) ++ secClose ++ renderBlocks bs tail

/-- Side conditions making a block unambiguous for the regex scan. -/
def goodBlock (b : SecBlock) : Bool :=
  !occursAt secOpen b.pre && !b.attrs.contains '>' &&
  !occursAt secOpen b.content && !occursAt secClose b.content

/-- The slide records the extractor should produce for a list of
section blocks: one per block, in order, with consecutive indices. -/
def blockSlides : List SecBlock → Nat → List SlideContent
  | [], _ => []
  | b :: bs, i => slideFromSection b.content i :: blockSlides bs (i + 1)

/-- Whether the title regex matches anywhere in the list. -/
def hasHeadingMatchIn : List Char → Bool
  | [] => false
  | s@(_ :: rest) => (matchHeadingAt s).isSome || hasHeadingMatchIn rest

/-- HTTP response of the match-images route: status and result
payload. -/
structure MatchImagesResponse where
  status : Nat
  slides : List SlideWithImages
deriving Repr, DecidableEq

/-- The match-images `POST` handler (src/app/api/match-images/route.ts
lines 14-108).  The imported query generator and the outbound
`/api/pixabay/batch` fetch are passed as parameters: the fetch yields
either an error status or the parsed `ImageSearchResult` array.  The
handler rejects an empty `html` (falsy check) and an empty extraction
with 400, forwards a failed batch status, and otherwise answers 200
with the matched slides truncated to `maxImagesPerSlide`. -/
def matchImagesPOST
    (queryGen : SlideContent → List ImageSearchQuery)
    (fetchBatch : List ImageSearchQuery → Except Nat (List ImageSearchResult))
    (html : String) (maxQueriesPerSlide maxImagesPerSlide : Nat) :
    MatchImagesResponse :=
  if html = "" then MatchImagesResponse.mk 400 []
  else
    let slides := extractSlidesFromHTML html
    if slides.length = 0 then MatchImagesResponse.mk 400 []
    else
      let allQueries := slides.flatMap fun slide =>
        (queryGen slide).take maxQueriesPerSlide
      match fetchBatch (uniqueQueries allQueries) with
      | Except.error st => MatchImagesResponse.mk st []
      | Except.ok searchResults =>
        let slidesWithImages := matchImagesToSlides slides searchResults
        MatchImagesResponse.mk 200 (slidesWithImages.map fun slide =>
          { slide with suggestedImages := slide.suggestedImages.take maxImagesPerSlide })

/-- Kind of an image reference in the generated HTML: Markdown
`![alt](url)` syntax or an `<img src="url">` tag. -/
inductive RefKind where
  | markdown
  | imgTag
deriving Repr, DecidableEq

/-- One image reference of the generated document, as seen by the
sanitizer's regex passes: its kind, URL, alt text, and whether it sits
inside a manually-added-images section (the positional
`isInManualSection` test). -/
structure ImgRef where
  kind : RefKind
  url : String
  alt : String
  inManual : Bool
deriving Repr, DecidableEq

/-- The extension filter of chat/route.ts lines 878-887: the regex
`/\.(jpe?g|png|gif|svg|webp)$/i`. -/
def hasValidImageExtension (url : String) : Bool :=
  let l := url.toLower
  l.endsWith ".jpg" || l.endsWith ".jpeg" || l.endsWith ".png" ||
  l.endsWith ".gif" || l.endsWith ".svg" || l.endsWith ".webp"

/-- `validatedImageUrls[imageReplacements % validatedImageUrls.length]`
(chat/route.ts lines 916, 944, 965, 982).  The list is nonempty on
every code path that reads it. -/
def cycleUrl (validated : List String) (n : Nat) : String :=
  validated.getD (n % validated.length) ""

/-- Pass 1 of the second `sanitizeGeneratedHtml` variant (chat/route.ts
lines 899-921): each Markdown image whose URL is validated (or inside a
manual section) is rewritten to an `<img>` tag with the same URL;
otherwise the URL is replaced by cycling through the validated list,
advancing the shared `imageReplacements` counter `n`. -/
def sanitizeMarkdownPass (validated : List String) :
    Nat → List ImgRef → List ImgRef × Nat
  | n, [] => ([], n)
  | n, r :: rs =>
    match r.kind with
    | RefKind.markdown =>
      if validated.contains r.url || r.inManual then
        let rec1 := sanitizeMarkdownPass validated n rs
        (ImgRef.mk RefKind.imgTag r.url r.alt r.inManual :: rec1.1, rec1.2)
      else
        let rec1 := sanitizeMarkdownPass validated (n + 1) rs
        (ImgRef.mk RefKind.imgTag (cycleUrl validated n) r.alt r.inManual :: rec1.1,
          rec1.2)
    | RefKind.imgTag =>
      let rec1 := sanitizeMarkdownPass validated n rs
      (r :: rec1.1, rec1.2)

/-- Pass 2 (chat/route.ts lines 923-954): each `<img>` tag whose URL is
validated (or inside a manual section) is rebuilt with the same URL;
otherwise the URL is replaced by cycling. -/
def sanitizeImgTagPass (validated : List String) :
    Nat → List ImgRef → List ImgRef × Nat
  | n, [] => ([], n)
  | n, r :: rs =>
    match r.kind with
    | RefKind.imgTag =>
      if validated.contains r.url || r.inManual then
        let rec1 := sanitizeImgTagPass validated n rs
        (r :: rec1.1, rec1.2)
      else
        let rec1 := sanitizeImgTagPass validated (n + 1) rs
        ({ r with url := cycleUrl validated n } :: rec1.1, rec1.2)
    | RefKind.markdown =>
      let rec1 := sanitizeImgTagPass validated n rs
      (r :: rec1.1, rec1.2)

/-- Passes 3 and 4 (chat/route.ts lines 956-988): URLs matching a
suspect domain pattern (Wikipedia/Wikimedia, then the known stock-photo
CDNs) that are not in the validated list and not in a manual section are
replaced by cycling.  The domain regex is abstracted to a Boolean
predicate on the URL. -/
def sanitizeDomainPass (validated : List String) (suspect : String → Bool) :
    Nat → List ImgRef → List ImgRef × Nat
  | n, [] => ([], n)
  | n, r :: rs =>
    if suspect r.url && !validated.contains r.url && !r.inManual then
      let rec1 := sanitizeDomainPass validated suspect (n + 1) rs
      ({ r with url := cycleUrl validated n } :: rec1.1, rec1.2)
    else
      let rec1 := sanitizeDomainPass validated suspect n rs
      (r :: rec1.1, rec1.2)

/-- The second `sanitizeGeneratedHtml` variant (chat/route.ts lines
837-1019), modeled on the document's sequence of image references: a
stateful `String.replace` callback over the matches of each regex pass
is a fold over the reference list threading the `imageReplacements`
counter.  The valid URL list is first filtered by extension; when
nothing remains the object is returned unchanged.  Step 5 (removal of
imageless `<div class="container">` blocks) touches no image URL and
contributes nothing here. -/
def sanitizeGeneratedHtml (wikiDomain externalDomain : String → Bool)
    (validImageUrls : List String) (refs : List ImgRef) : List ImgRef :=
  let validated := validImageUrls.filter hasValidImageExtension
  if validated.isEmpty then refs
  else
    let p1 := sanitizeMarkdownPass validated 0 refs
    let p2 := sanitizeImgTagPass validated p1.2 p1.1
    let p3 := sanitizeDomainPass validated wikiDomain p2.2 p2.1
    let p4 := sanitizeDomainPass validated externalDomain p3.2 p3.1
    p4.1

/-- The pairwise relation of round-trip stability: whenever the first
document's reference has a validated URL, the second document's
reference at the same position carries the same URL. -/
def KeepsValidUrl (validated : List String) (r r' : ImgRef) : Prop :=
  r.url ∈ validated → r'.url = r.url

/-- Folding the per-tag `+2` bonus over a tag list adds twice the number
of matching tags. -/
theorem foldl_tagBonus (p : String → Bool) (l : List String) (s0 : ℚ) :
    l.foldl (fun s tag => if p tag then s + 2 else s) s0
      = s0 + 2 * (l.countP p : ℚ) := by
  induction l generalizing s0 with
  | nil => simp
  | cons a l ih =>
    simp only [List.foldl_cons, List.countP_cons, ih]
    split_ifs with h
    · push_cast
      ring
    · push_cast
      ring

/-- C1: for every image hit, slide and originating query string, the
relevance score equals the additive sum of the likes bonus (capped at
10), the downloads bonus (capped at 5), the resolution bonus (5 for at
least 1920x1080, else 3 for at least 1280x720, else 0), the cover
landscape bonus (5 when the slide type is cover and the width is
strictly greater than the height), 2 per comma-separated image tag
occurring as a substring of the lowercased combined title+content text,
and 3 when the query occurs case-insensitively in the tag string. -/
theorem scoreImageForSlide_additive (image : PixabayImageHit)
    (slide : SlideContent) (query : String) :
    scoreImageForSlide image slide query =
      min ((image.likes : ℚ) / 100) 10
      + min ((image.downloads : ℚ) / 1000) 5
      + (if 1920 ≤ image.imageWidth ∧ 1080 ≤ image.imageHeight then (5 : ℚ)
         else if 1280 ≤ image.imageWidth ∧ 720 ≤ image.imageHeight then (3 : ℚ)
         else 0)
      + (if slide.type = some SlideType.cover ∧ image.imageHeight < image.imageWidth
         then (5 : ℚ) else 0)
      + 2 * (((image.tags.toLower.splitOn ",").map String.trim).countP
          (fun tag => jsIncludes ((slide.title ++ " " ++ slide.content).toLower) tag) : ℚ)
      + (if jsIncludes image.tags.toLower query.toLower then (3 : ℚ) else 0) := by
  simp only [scoreImageForSlide, foldl_tagBonus]
  split_ifs <;> ring

/-- Elements emitted by `jsSetDedupAux` are never in `seen`. -/
theorem jsSetDedupAux_not_mem_seen (l : List String) :
    ∀ (seen : List String) (x : String), x ∈ jsSetDedupAux seen l → x ∉ seen := by
  induction l with
  | nil => intro seen x hx; simp [jsSetDedupAux] at hx
  | cons a l ih =>
    intro seen x hx
    by_cases ha : a ∈ seen
    · simp only [jsSetDedupAux, if_pos ha] at hx
      exact ih seen x hx
    · simp only [jsSetDedupAux, if_neg ha] at hx
      rcases List.mem_cons.1 hx with rfl | hx
      · exact ha
      · intro hs
        exact ih (a :: seen) x hx (List.mem_cons_of_mem a hs)

/-- The JavaScript-set deduplication produces a duplicate-free list. -/
theorem jsSetDedupAux_nodup (l : List String) :
    ∀ seen : List String, (jsSetDedupAux seen l).Nodup := by
  induction l with
  | nil => intro seen; simp [jsSetDedupAux]
  | cons a l ih =>
    intro seen
    by_cases ha : a ∈ seen
    · simp only [jsSetDedupAux, if_pos ha]
      exact ih seen
    · simp only [jsSetDedupAux, if_neg ha]
      refine List.nodup_cons.2 ⟨fun hmem => ?_, ih (a :: seen)⟩
      exact jsSetDedupAux_not_mem_seen l (a :: seen) a hmem
        (List.mem_cons_self a seen)

/-- The deduplicated query list has no duplicates. -/
theorem jsSetDedup_nodup (l : List String) : (jsSetDedup l).Nodup :=
  jsSetDedupAux_nodup l []

/-- C2: every slide produced by `matchImagesToSlides` carries at most 5
suggested images (the top 5 scored (image, query) tuples sorted
descending by score), and its `searchQueries` list is exactly the
distinct originating queries of those top-scored tuples, without
duplicates. -/
theorem matchImagesToSlides_top5 (slides : List SlideContent)
    (imageResults : List ImageSearchResult) (sw : SlideWithImages)
    (hm : sw ∈ matchImagesToSlides slides imageResults) :
    sw.suggestedImages.length ≤ 5 ∧ sw.searchQueries.Nodup ∧
      ∃ slide ∈ slides,
        sw.suggestedImages = (topImagesForSlide slide imageResults).map (·.hit) ∧
        sw.searchQueries
          = jsSetDedup ((topImagesForSlide slide imageResults).map (·.query)) := by
  rcases List.mem_map.1 hm with ⟨slide, hs, rfl⟩
  refine ⟨?_, ?_, slide, hs, rfl, rfl⟩
  · simp only [List.length_map, topImagesForSlide, List.length_take]
    exact le_trans (Nat.min_le_left _ _) (le_refl 5)
  · exact jsSetDedup_nodup _

/-- Witness for C2 at a concrete slide and empty search results. -/
theorem matchImagesToSlides_top5_witness :
    SlideWithImages.mk "t" "c" 0 (some SlideType.cover) [] []
        ∈ matchImagesToSlides [SlideContent.mk "t" "c" 0 (some SlideType.cover)] []
      ∧ (SlideWithImages.mk "t" "c" 0 (some SlideType.cover) [] []).suggestedImages.length ≤ 5
      ∧ (SlideWithImages.mk "t" "c" 0 (some SlideType.cover) [] []).searchQueries.Nodup := by
  have hm : SlideWithImages.mk "t" "c" 0 (some SlideType.cover) [] []
      ∈ matchImagesToSlides [SlideContent.mk "t" "c" 0 (some SlideType.cover)] [] := by
    simp [matchImagesToSlides, topImagesForSlide, jsSetDedup, jsSetDedupAux,
      List.mergeSort_nil]
  exact ⟨hm, (matchImagesToSlides_top5 _ _ _ hm).1,
    (matchImagesToSlides_top5 _ _ _ hm).2.1⟩

/-- The numbered list `l.enum` has no duplicate entries. -/
theorem enum_nodup {α : Type} (l : List α) : l.enum.Nodup := by
  refine List.Nodup.of_map Prod.fst ?_
  rw [List.enum_map_fst]
  exact List.nodup_range _

/-- Entries kept by the first-index filter of `uniqueQueries` are
determined by their `q` field. -/
theorem uniqueQueries_filter_inj (l : List ImageSearchQuery)
    (p p' : Nat × ImageSearchQuery)
    (hp : p ∈ l.enum.filter fun r => l.findIdx (fun q => q.q == r.2.q) == r.1)
    (hp' : p' ∈ l.enum.filter fun r => l.findIdx (fun q => q.q == r.2.q) == r.1)
    (hq : p.2.q = p'.2.q) : p = p' := by
  have hfst : (l.enum.map Prod.fst).Nodup := by
    rw [List.enum_map_fst]; exact List.nodup_range _
  have h1 := List.mem_filter.1 hp
  have h2 := List.mem_filter.1 hp'
  have e1 : l.findIdx (fun q => q.q == p.2.q) = p.1 := by simpa using h1.2
  have e2 : l.findIdx (fun q => q.q == p'.2.q) = p'.1 := by simpa using h2.2
  have efst : p.1 = p'.1 := by rw [← e1, ← e2, hq]
  exact List.inj_on_of_nodup_map hfst h1.1 h2.1 efst

/-- The `q` fields of the deduplicated query list are pairwise
distinct. -/
theorem uniqueQueries_q_nodup (l : List ImageSearchQuery) :
    ((uniqueQueries l).map (·.q)).Nodup := by
  unfold uniqueQueries
  rw [List.map_map]
  refine List.Nodup.map_on ?_ ?_
  · intro x hx y hy hxy
    exact uniqueQueries_filter_inj l x y hx hy hxy
  · exact List.Nodup.sublist (List.filter_sublist _) (enum_nodup l)

/-- Membership transfer: a `q` value occurs in the deduplicated list
exactly when it occurs in the original list. -/
theorem uniqueQueries_mem_q (l : List ImageSearchQuery) (s : String) :
    s ∈ (uniqueQueries l).map (·.q) ↔ s ∈ l.map (·.q) := by
  constructor
  · intro hs
    rcases List.mem_map.1 hs with ⟨y, hy, rfl⟩
    rcases List.mem_map.1 hy with ⟨p, hp, rfl⟩
    have hpe : p ∈ l.enum := (List.mem_filter.1 hp).1
    have hsnd : p.2 ∈ l := by
      have : p.2 ∈ l.enum.map Prod.snd := List.mem_map_of_mem Prod.snd hpe
      rwa [List.enum_map_snd] at this
    exact List.mem_map_of_mem (·.q) hsnd
  · intro hs
    rcases List.mem_map.1 hs with ⟨y, hy, rfl⟩
    have hex : ∃ x ∈ l, (fun q : ImageSearchQuery => q.q == y.q) x = true :=
      ⟨y, hy, by simp⟩
    have hlt : l.findIdx (fun q => q.q == y.q) < l.length :=
      List.findIdx_lt_length.2 hex
    set i := l.findIdx (fun q => q.q == y.q) with hi
    have hpred : (l[i].q == y.q) = true := List.findIdx_getElem (w := hlt)
    have hqi : l[i].q = y.q := by simpa using hpred
    have hmem : (i, l[i]) ∈ l.enum := by
      rw [List.mk_mem_enum_iff_getElem?]
      exact List.getElem?_eq_getElem hlt
    have hkeep : (i, l[i]) ∈ l.enum.filter
        fun r => l.findIdx (fun q => q.q == r.2.q) == r.1 := by
      refine List.mem_filter.2 ⟨hmem, ?_⟩
      simp only [hqi]
      simp [← hi]
    refine List.mem_map.2 ⟨l[i], ?_, hqi⟩
    exact List.mem_map_of_mem Prod.snd hkeep

/-- C5: the merged query list sent to the batch search contains each
distinct `q` exactly once: after the first-index deduplication filter,
the multiplicity of any query string is 1 when it occurred in the
flattened per-slide query list, 0 otherwise.  In particular two slides
that independently generate the same `q` contribute a single dispatched
query. -/
theorem uniqueQueries_each_q_once (l : List ImageSearchQuery) (s : String) :
    ((uniqueQueries l).map (·.q)).count s
      = if s ∈ l.map (·.q) then 1 else 0 := by
  by_cases hs : s ∈ l.map (·.q)
  · rw [if_pos hs]
    exact List.count_eq_one_of_mem (uniqueQueries_q_nodup l)
      ((uniqueQueries_mem_q l s).2 hs)
  · rw [if_neg hs]
    exact List.count_eq_zero.2 fun hmem => hs ((uniqueQueries_mem_q l s).1 hmem)

/-- Reading back the identifier just stored. -/
theorem logSet_same (log : RequestLog) (ip : String) (l : List Int) :
    logSet log ip l ip = l := by
  simp [logSet]

/-- Storing twice under the same identifier keeps the second value. -/
theorem logSet_logSet (log : RequestLog) (ip : String) (a b : List Int) :
    logSet (logSet log ip a) ip b = logSet log ip b := by
  funext x
  by_cases hx : x = ip <;> simp [logSet, hx]

/-- Any run of at most `RATE_LIMIT` requests whose timestamps stay
within the window of a later instant `now` is fully accepted, and the
log afterwards holds exactly the previous entries plus the new
timestamps. -/
theorem runRequests_all_accepted (now : Int) (ip : String) :
    ∀ (ts : List Int) (log : RequestLog),
      (∀ t ∈ log ip, t ≤ now ∧ now - t < RATE_WINDOW) →
      (∀ t ∈ ts, t ≤ now ∧ now - t < RATE_WINDOW) →
      (log ip).length + ts.length ≤ RATE_LIMIT →
      runRequests ip ts log
        = (List.replicate ts.length false, logSet log ip (log ip ++ ts)) := by
  intro ts
  induction ts with
  | nil =>
    intro log hlog hts hlen
    have : logSet log ip (log ip) = log := by
      funext x
      by_cases hx : x = ip <;> simp [logSet, hx]
    simp [runRequests, this]
  | cons t ts ih =>
    intro log hlog hts hlen
    have hkeep : ∀ u ∈ log ip, (decide (t - u < RATE_WINDOW)) = true := by
      intro u hu
      have h1 := (hlog u hu).2
      have h2 := (hts t (List.mem_cons_self t ts)).1
      simp only [decide_eq_true_eq]
      omega
    have hfil : (log ip).filter (fun timestamp => decide (t - timestamp < RATE_WINDOW))
        = log ip := List.filter_eq_self.2 hkeep
    have hnotfull : ¬ RATE_LIMIT ≤ (log ip).length := by
      simp only [List.length_cons] at hlen
      omega
    have hstep : isRateLimited t ip log
        = (false, logSet log ip (log ip ++ [t])) := by
      simp only [isRateLimited, hfil]
      rw [if_neg hnotfull]
    have hlog' : ∀ u ∈ log ip ++ [t], u ≤ now ∧ now - u < RATE_WINDOW := by
      intro u hu
      rcases List.mem_append.1 hu with hu | hu
      · exact hlog u hu
      · rcases List.mem_singleton.1 hu with rfl
        exact hts u (List.mem_cons_self u ts)
    have hts' : ∀ u ∈ ts, u ≤ now ∧ now - u < RATE_WINDOW := fun u hu =>
      hts u (List.mem_cons_of_mem t hu)
    have hlen' : ((logSet log ip (log ip ++ [t])) ip).length + ts.length
        ≤ RATE_LIMIT := by
      rw [logSet_same, List.length_append]
      simp only [List.length_cons] at hlen
      simp only [List.length_singleton]
      omega
    have hih := ih (logSet log ip (log ip ++ [t]))
      (by rw [logSet_same]; exact hlog') hts' hlen'
    simp only [runRequests, hstep, hih, logSet_same, logSet_logSet,
      List.length_cons, List.replicate_succ]
    rw [List.append_assoc, List.singleton_append]

/-- The decision of `isRateLimited` depends only on the pruned log
length. -/
theorem isRateLimited_fst (now : Int) (ip : String) (log : RequestLog) :
    (isRateLimited now ip log).1
      = decide (RATE_LIMIT
          ≤ ((log ip).filter fun timestamp =>
              decide (now - timestamp < RATE_WINDOW)).length) := by
  simp only [isRateLimited]
  split_ifs with h <;> simp [h]

/-- The updated log of `isRateLimited`: pruned on rejection, pruned plus
the new timestamp on acceptance. -/
theorem isRateLimited_snd (now : Int) (ip : String) (log : RequestLog) :
    (isRateLimited now ip log).2
      = if RATE_LIMIT ≤ ((log ip).filter fun timestamp =>
            decide (now - timestamp < RATE_WINDOW)).length
        then logSet log ip ((log ip).filter fun timestamp =>
            decide (now - timestamp < RATE_WINDOW))
        else logSet log ip (((log ip).filter fun timestamp =>
            decide (now - timestamp < RATE_WINDOW)) ++ [now]) := by
  simp only [isRateLimited]
  split_ifs <;> rfl

/-- C6: from an empty log, exactly `RATE_LIMIT` (100) requests from one
identifier whose timestamps all lie within the trailing `RATE_WINDOW`
(60 seconds) of the next instant `now` are all accepted; the next
request at `now` is rejected (`isRateLimited` returns `true`, and the
batch handler answers 429); and once all logged timestamps are at least
`RATE_WINDOW` old at a later instant `now2`, a subsequent request is
accepted again. -/
theorem rateLimiter_window_behavior (ip : String) (ts : List Int)
    (now now2 : Int)
    (search : WikimediaSearchParams → Except String WikimediaSearchResponse)
    (queries : List WikimediaBatchQuery)
    (hlen : ts.length = RATE_LIMIT)
    (hts : ∀ t ∈ ts, t ≤ now ∧ now - t < RATE_WINDOW)
    (hnow2 : ∀ t ∈ ts, RATE_WINDOW ≤ now2 - t) :
    (runRequests ip ts emptyLog).1 = List.replicate RATE_LIMIT false
    ∧ (isRateLimited now ip (runRequests ip ts emptyLog).2).1 = true
    ∧ (wikimediaBatchPOST search now ip (runRequests ip ts emptyLog).2
        queries).1.status = 429
    ∧ (isRateLimited now2 ip
        (isRateLimited now ip (runRequests ip ts emptyLog).2).2).1 = false := by
  have hrun := runRequests_all_accepted now ip ts emptyLog
    (by intro t ht; simp [emptyLog] at ht) hts
    (by simp [emptyLog, hlen])
  have hlog1 : (runRequests ip ts emptyLog).2 ip = ts := by
    rw [hrun]
    simp [logSet, emptyLog]
  have hfilnow : ts.filter (fun timestamp => decide (now - timestamp < RATE_WINDOW))
      = ts := List.filter_eq_self.2 fun u hu => by
    simpa using (hts u hu).2
  have hfull : RATE_LIMIT
      ≤ (ts.filter (fun timestamp => decide (now - timestamp < RATE_WINDOW))).length := by
    rw [hfilnow, hlen]
  have hreject : (isRateLimited now ip (runRequests ip ts emptyLog).2).1 = true := by
    rw [isRateLimited_fst, hlog1]
    simpa using hfull
  have hlog2 : (isRateLimited now ip (runRequests ip ts emptyLog).2).2 ip = ts := by
    rw [isRateLimited_snd, hlog1, if_pos hfull, logSet_same]
    exact hfilnow
  have hfilnow2 : ts.filter (fun timestamp => decide (now2 - timestamp < RATE_WINDOW))
      = [] := List.filter_eq_nil_iff.2 fun u hu => by
    have := hnow2 u hu
    simp only [decide_eq_true_eq]
    omega
  refine ⟨by rw [hrun, hlen], hreject, ?_, ?_⟩
  · simp only [wikimediaBatchPOST, hreject]
    simp
  · rw [isRateLimited_fst, hlog2, hfilnow2]
    simp [RATE_LIMIT]

/-- Witness for C6: one hundred requests at time 0 exhaust the quota,
the next request at time 0 is rejected, and a request after the window
(time 60000) is accepted. -/
theorem rateLimiter_window_behavior_witness :
    (List.replicate 100 (0 : Int)).length = RATE_LIMIT
    ∧ (runRequests "a" (List.replicate 100 (0 : Int)) emptyLog).1
        = List.replicate RATE_LIMIT false
    ∧ (isRateLimited 0 "a"
        (runRequests "a" (List.replicate 100 (0 : Int)) emptyLog).2).1 = true
    ∧ (isRateLimited 60000 "a"
        (isRateLimited 0 "a"
          (runRequests "a" (List.replicate 100 (0 : Int)) emptyLog).2).2).1
        = false := by
  have h := rateLimiter_window_behavior "a" (List.replicate 100 (0 : Int))
    0 60000 (fun _ => Except.error "e") []
    (by decide)
    (by decide)
    (by decide)
  exact ⟨by decide, h.1, h.2.1, h.2.2.2⟩

/-- C10: a rejected request consumes no quota.  Whenever either
rate-limiter variant returns `true`, the stored timestamp list for the
client is only the pruned previous list (entries within the window); no
new timestamp is appended on the rejecting path. -/
theorem rejected_request_consumes_no_quota :
    (∀ (now : Int) (ip : String) (log : RequestLog),
      (isRateLimited now ip log).1 = true →
        (isRateLimited now ip log).2 ip
          = (log ip).filter fun timestamp => now - timestamp < RATE_WINDOW)
    ∧ (∀ (now : Int) (ip : String) (count : Nat) (log : RequestLog)
        (x : String),
      (pixabayIsRateLimited now ip count log).1 = true →
        (pixabayIsRateLimited now ip count log).2 x
          = (log x).filter fun timestamp => now - timestamp < RATE_WINDOW) := by
  constructor
  · intro now ip log h
    by_cases hc : RATE_LIMIT
        ≤ ((log ip).filter fun timestamp => decide (now - timestamp < RATE_WINDOW)).length
    · simp only [isRateLimited]
      rw [if_pos hc]
      simp [logSet]
    · exfalso
      simp only [isRateLimited] at h
      rw [if_neg hc] at h
      exact Bool.false_ne_true h
  · intro now ip count log x h
    by_cases hc : RATE_LIMIT < ((cleanupRequestLog now log) ip).length + count
    · simp only [pixabayIsRateLimited]
      rw [if_pos hc]
      rfl
    · exfalso
      simp only [pixabayIsRateLimited] at h
      rw [if_neg hc] at h
      exact Bool.false_ne_true h

/-- Witness for C10: a full log of one hundred fresh timestamps rejects
the next request in both variants and keeps exactly the pruned list. -/
theorem rejected_request_consumes_no_quota_witness :
    ((isRateLimited 0 "a" (logSet emptyLog "a" (List.replicate 100 0))).1 = true
      ∧ (isRateLimited 0 "a" (logSet emptyLog "a" (List.replicate 100 0))).2 "a"
          = ((logSet emptyLog "a" (List.replicate 100 0)) "a").filter
              fun timestamp => (0 : Int) - timestamp < RATE_WINDOW)
    ∧ ((pixabayIsRateLimited 0 "a" 1 (logSet emptyLog "a" (List.replicate 100 0))).1 = true
      ∧ (pixabayIsRateLimited 0 "a" 1 (logSet emptyLog "a" (List.replicate 100 0))).2 "a"
          = ((logSet emptyLog "a" (List.replicate 100 0)) "a").filter
              fun timestamp => (0 : Int) - timestamp < RATE_WINDOW) := by
  have h1 : (isRateLimited 0 "a" (logSet emptyLog "a" (List.replicate 100 0))).1
      = true := by decide
  have h2 : (pixabayIsRateLimited 0 "a" 1
      (logSet emptyLog "a" (List.replicate 100 0))).1 = true := by decide
  exact ⟨⟨h1, rejected_request_consumes_no_quota.1 0 "a" _ h1⟩,
    ⟨h2, rejected_request_consumes_no_quota.2 0 "a" 1 _ "a" h2⟩⟩

/-- Pass 1 keeps every validated URL in place. -/
theorem sanitizeMarkdownPass_keeps (validated : List String) :
    ∀ (n : Nat) (refs : List ImgRef),
      List.Forall₂ (KeepsValidUrl validated) refs
        (sanitizeMarkdownPass validated n refs).1 := by
  intro n refs
  induction refs generalizing n with
  | nil => simp [sanitizeMarkdownPass]
  | cons r rs ih =>
    cases hk : r.kind with
    | markdown =>
      by_cases hc : (validated.contains r.url || r.inManual) = true
      · simp only [sanitizeMarkdownPass, hk, if_pos hc]
        exact List.Forall₂.cons (fun _ => rfl) (ih n)
      · simp only [sanitizeMarkdownPass, hk, if_neg hc]
        refine List.Forall₂.cons (fun hmem => absurd ?_ hc) (ih (n + 1))
        simp only [Bool.or_eq_true]
        exact Or.inl (List.elem_eq_true_of_mem hmem)
    | imgTag =>
      simp only [sanitizeMarkdownPass, hk]
      exact List.Forall₂.cons (fun _ => rfl) (ih n)

/-- Pass 2 keeps every validated URL in place. -/
theorem sanitizeImgTagPass_keeps (validated : List String) :
    ∀ (n : Nat) (refs : List ImgRef),
      List.Forall₂ (KeepsValidUrl validated) refs
        (sanitizeImgTagPass validated n refs).1 := by
  intro n refs
  induction refs generalizing n with
  | nil => simp [sanitizeImgTagPass]
  | cons r rs ih =>
    cases hk : r.kind with
    | imgTag =>
      by_cases hc : (validated.contains r.url || r.inManual) = true
      · simp only [sanitizeImgTagPass, hk, if_pos hc]
        exact List.Forall₂.cons (fun _ => rfl) (ih n)
      · simp only [sanitizeImgTagPass, hk, if_neg hc]
        refine List.Forall₂.cons (fun hmem => absurd ?_ hc) (ih (n + 1))
        simp only [Bool.or_eq_true]
        exact Or.inl (List.elem_eq_true_of_mem hmem)
    | markdown =>
      simp only [sanitizeImgTagPass, hk]
      exact List.Forall₂.cons (fun _ => rfl) (ih n)

/-- Passes 3 and 4 keep every validated URL in place. -/
theorem sanitizeDomainPass_keeps (validated : List String)
    (suspect : String → Bool) :
    ∀ (n : Nat) (refs : List ImgRef),
      List.Forall₂ (KeepsValidUrl validated) refs
        (sanitizeDomainPass validated suspect n refs).1 := by
  intro n refs
  induction refs generalizing n with
  | nil => simp [sanitizeDomainPass]
  | cons r rs ih =>
    by_cases hc : (suspect r.url && !validated.contains r.url && !r.inManual) = true
    · simp only [sanitizeDomainPass, if_pos hc]
      refine List.Forall₂.cons (fun hmem => ?_) (ih (n + 1))
      simp only [Bool.and_eq_true, Bool.not_eq_true'] at hc
      exact absurd (List.elem_eq_true_of_mem hmem) (by simpa using hc.1.2)
    · simp only [sanitizeDomainPass, if_neg hc]
      exact List.Forall₂.cons (fun _ => rfl) (ih n)

/-- The stability relation composes transitively along the passes. -/
theorem keepsValidUrl_trans (validated : List String)
    {a b c : List ImgRef}
    (h1 : List.Forall₂ (KeepsValidUrl validated) a b)
    (h2 : List.Forall₂ (KeepsValidUrl validated) b c) :
    List.Forall₂ (KeepsValidUrl validated) a c := by
  induction h1 generalizing c with
  | nil =>
    cases h2
    exact List.Forall₂.nil
  | cons hr ht ih =>
    cases h2 with
    | cons hr2 ht2 =>
      refine List.Forall₂.cons (fun hmem => ?_) (ih ht2)
      have e1 := hr hmem
      have e2 := hr2 (by rw [e1]; exact hmem)
      rw [e2, e1]

/-- One full sanitizer run keeps every validated URL at its position. -/
theorem sanitizeGeneratedHtml_keeps (wikiDomain externalDomain : String → Bool)
    (validImageUrls : List String) (refs : List ImgRef) :
    List.Forall₂ (KeepsValidUrl (validImageUrls.filter hasValidImageExtension))
      refs (sanitizeGeneratedHtml wikiDomain externalDomain validImageUrls refs) := by
  unfold sanitizeGeneratedHtml
  by_cases he : (validImageUrls.filter hasValidImageExtension).isEmpty = true
  · rw [if_pos he]
    exact List.forall₂_same.2 fun x _ => fun _ => rfl
  · rw [if_neg he]
    refine keepsValidUrl_trans _ (sanitizeMarkdownPass_keeps _ 0 refs)
      (keepsValidUrl_trans _ (sanitizeImgTagPass_keeps _ _ _)
        (keepsValidUrl_trans _ (sanitizeDomainPass_keeps _ _ _ _)
          (sanitizeDomainPass_keeps _ _ _ _)))

/-- C7: running the sanitizer a second time on its own output, with the
same valid-image-URL set, performs no further URL replacement for image
URLs that are members of the (extension-filtered) valid set: at every
position of the first run's output whose reference URL is in the valid
set, the second run leaves that URL unchanged. -/
theorem sanitizeGeneratedHtml_roundtrip_stable
    (wikiDomain externalDomain : String → Bool)
    (validImageUrls : List String) (refs : List ImgRef) :
    List.Forall₂ (KeepsValidUrl (validImageUrls.filter hasValidImageExtension))
      (sanitizeGeneratedHtml wikiDomain externalDomain validImageUrls refs)
      (sanitizeGeneratedHtml wikiDomain externalDomain validImageUrls
        (sanitizeGeneratedHtml wikiDomain externalDomain validImageUrls refs)) :=
  sanitizeGeneratedHtml_keeps wikiDomain externalDomain validImageUrls
    (sanitizeGeneratedHtml wikiDomain externalDomain validImageUrls refs)

/-- C8 counterexample: with a provider that fails on query "x" with
message "boom", the batch handler completes with status 200, but the
entry for the failing query is the `{ query, error }` marker object, not
an "empty result" entry (an entry carrying a result with zero hits). -/
theorem wikimediaBatch_error_entry_counterexample :
    (wikimediaBatchPOST (fun _ => Except.error "boom") 0 "a" emptyLog
        [WikimediaBatchQuery.mk "x" none none none]).1
      = BatchResponse.mk 200 [BatchEntry.err "x" "boom"]
    ∧ isErrEntry (BatchEntry.err "x" "boom") = true
    ∧ BatchEntry.err "x" "boom"
        ≠ BatchEntry.ok "x" (WikimediaSearchResponse.mk [] 0) := by
  refine ⟨by decide, rfl, by decide⟩

/-- C8 (amended): a failure of an individual provider query is caught
and downgraded to an error-marker entry `{ query, error }` for that
query, and the batch request still completes with status 200 containing
one entry per query instead of failing as a whole. -/
theorem wikimediaBatch_isolates_failures
    (search : WikimediaSearchParams → Except String WikimediaSearchResponse)
    (now : Int) (ip : String) (log : RequestLog)
    (queries : List WikimediaBatchQuery)
    (hnl : (isRateLimited now ip log).1 = false)
    (hne : queries ≠ [])
    (hlen : queries.length ≤ 10) :
    (wikimediaBatchPOST search now ip log queries).1.status = 200
    ∧ (wikimediaBatchPOST search now ip log queries).1.entries
        = queries.map (fun query =>
            match search (wikimediaQueryParams query) with
            | Except.ok result => BatchEntry.ok query.q result
            | Except.error e => BatchEntry.err query.q e)
    ∧ (wikimediaBatchPOST search now ip log queries).1.entries.length
        = queries.length := by
  have hemp : queries.isEmpty = false := by
    cases queries with
    | nil => exact absurd rfl hne
    | cons a l => rfl
  have htake : queries.take 10 = queries := List.take_of_length_le hlen
  simp only [wikimediaBatchPOST, hnl, hemp, htake]
  simp [List.length_map]

/-- Witness for C8 at a concrete failing provider. -/
theorem wikimediaBatch_isolates_failures_witness :
    (isRateLimited 0 "a" emptyLog).1 = false
    ∧ [WikimediaBatchQuery.mk "x" none none none] ≠ ([] : List WikimediaBatchQuery)
    ∧ (wikimediaBatchPOST (fun _ => Except.error "down") 0 "a" emptyLog
        [WikimediaBatchQuery.mk "x" none none none]).1.status = 200
    ∧ (wikimediaBatchPOST (fun _ => Except.error "down") 0 "a" emptyLog
        [WikimediaBatchQuery.mk "x" none none none]).1.entries
        = [BatchEntry.err "x" "down"] := by
  have h := wikimediaBatch_isolates_failures (fun _ => Except.error "down")
    0 "a" emptyLog [WikimediaBatchQuery.mk "x" none none none]
    (by decide) (by decide) (by decide)
  refine ⟨by decide, by decide, h.1, ?_⟩
  rw [h.2.1]
  rfl

/-- Unfolding of the extraction loop when no further section matches. -/
theorem extractLoop_none (s : List Char) (i : Nat)
    (h : splitFirstSection s = none) : extractLoop s i = [] := by
  rw [extractLoop.eq_def]
  split
  · rfl
  · next r heq =>
    rw [h] at heq
    cases heq

/-- Unfolding of the extraction loop on a successful section match. -/
theorem extractLoop_some (s : List Char) (r : List Char × List Char)
    (i : Nat) (h : splitFirstSection s = some r) :
    extractLoop s i = slideFromSection r.1 i :: extractLoop r.2 (i + 1) := by
  rw [extractLoop.eq_def]
  split
  · next heq =>
    rw [h] at heq
    cases heq
  · next r' heq =>
    rw [h] at heq
    rcases Option.some.inj heq with rfl
    rfl

/-- C9 counterexample: on HTML with no section elements the extractor
returns the empty list, but the match-images handler responds with the
error status 400 rather than treating it as "no slides to process". -/
theorem matchImages_no_slides_counterexample :
    extractSlidesFromHTML "<p>hi</p>" = []
    ∧ (matchImagesPOST (fun _ => []) (fun _ => Except.error 500)
        "<p>hi</p>" 3 5).status = 400 := by
  have hext : extractSlidesFromHTML "<p>hi</p>" = [] :=
    extractLoop_none _ 0 (by decide)
  have hne : ¬ ("<p>hi</p>" = "") := by decide
  refine ⟨hext, ?_⟩
  simp only [matchImagesPOST, if_neg hne, hext, List.length_nil]
  rfl

/-- C9 (amended): when the input HTML contains no slide section
elements, `extractSlidesFromHTML` returns the empty list and the
match-images handler treats this as a client error, responding with
status 400 ("No slides found in the HTML content"). -/
theorem matchImages_no_slides_400
    (queryGen : SlideContent → List ImageSearchQuery)
    (fetchBatch : List ImageSearchQuery → Except Nat (List ImageSearchResult))
    (html : String) (maxQueriesPerSlide maxImagesPerSlide : Nat)
    (hhtml : html ≠ "")
    (hext : extractSlidesFromHTML html = []) :
    (matchImagesPOST queryGen fetchBatch html maxQueriesPerSlide
        maxImagesPerSlide).status = 400 := by
  simp only [matchImagesPOST, if_neg hhtml, hext, List.length_nil]
  rfl

/-- Witness for the amended C9 at concrete sectionless HTML. -/
theorem matchImages_no_slides_400_witness :
    ("<p>hi</p>" ≠ "")
    ∧ extractSlidesFromHTML "<p>hi</p>" = []
    ∧ (matchImagesPOST (fun _ => [ImageSearchQuery.mk "q" none none none none none])
        (fun _ => Except.ok []) "<p>hi</p>" 3 5).status = 400 := by
  have hext : extractSlidesFromHTML "<p>hi</p>" = [] :=
    extractLoop_none _ 0 (by decide)
  exact ⟨by decide, hext,
    matchImages_no_slides_400 _ _ _ _ _ (by decide) hext⟩

/-- When no occurrence was found by the left-to-right scan, no start
position carries the pattern. -/
theorem not_isPrefixOf_of_occursAt_false (pat : List Char) :
    ∀ s : List Char, occursAt pat s = false →
      ∀ i, pat.isPrefixOf (s.drop i) = false := by
  intro s
  induction s with
  | nil =>
    intro h i
    rw [List.drop_nil]
    cases pat with
    | nil => simp [occursAt] at h
    | cons p ps => rfl
  | cons c rest ih =>
    intro h i
    rw [occursAt, Bool.or_eq_false_iff] at h
    cases i with
    | zero => exact h.1
    | succ i =>
      rw [List.drop_succ_cons]
      exact ih h.2 i

/-- A list is a prefix of itself followed by anything. -/
theorem isPrefixOf_append_self (pat t : List Char) :
    pat.isPrefixOf (pat ++ t) = true := by
  induction pat with
  | nil => cases t <;> rfl
  | cons p ps ih => simp [List.isPrefixOf, ih]

/-- A prefix of `a ++ b` that fits inside `a` is a prefix of `a`. -/
theorem isPrefixOf_of_fits (pat : List Char) :
    ∀ (a b : List Char), pat.isPrefixOf (a ++ b) = true →
      pat.length ≤ a.length → pat.isPrefixOf a = true := by
  induction pat with
  | nil => intro a b _ _; cases a <;> rfl
  | cons p ps ih =>
    intro a b h hlen
    cases a with
    | nil => simp at hlen
    | cons x xs =>
      simp only [List.cons_append, List.isPrefixOf, Bool.and_eq_true] at h ⊢
      simp only [List.length_cons] at hlen
      exact ⟨h.1, ih xs b h.2 (by omega)⟩

/-- A prefix of `a ++ c :: b` that reaches past `a` contains the
boundary character `c`. -/
theorem mem_of_isPrefixOf_append (pat : List Char) :
    ∀ (a : List Char) (c : Char) (b : List Char),
      pat.isPrefixOf (a ++ c :: b) = true → a.length < pat.length →
      c ∈ pat := by
  induction pat with
  | nil => intro a c b _ hlen; simp at hlen
  | cons p ps ih =>
    intro a c b h hlen
    cases a with
    | nil =>
      simp only [List.nil_append, List.isPrefixOf, Bool.and_eq_true] at h
      rw [← eq_of_beq h.1]
      exact List.mem_cons_self p ps
    | cons x xs =>
      simp only [List.cons_append, List.isPrefixOf, Bool.and_eq_true] at h
      simp only [List.length_cons] at hlen
      exact List.mem_cons_of_mem p (ih xs c b h.2 (by omega))

/-- A pattern that occurs nowhere is never found. -/
theorem findSubstrIdx_eq_none (pat : List Char) :
    ∀ s : List Char, occursAt pat s = false → findSubstrIdx pat s = none := by
  intro s
  induction s with
  | nil =>
    intro h
    cases pat with
    | nil => simp [occursAt] at h
    | cons p ps => simp [findSubstrIdx]
  | cons c rest ih =>
    intro h
    rw [occursAt, Bool.or_eq_false_iff] at h
    simp [findSubstrIdx, h.1, ih h.2]

/-- Locating the first occurrence of a `'<'`-headed pattern placed
after a front segment that contains no occurrence: an occurrence cannot
straddle the boundary because every non-initial pattern character
differs from the `'<'` that starts the tail. -/
theorem findSubstrIdx_append_boundary (pcs : List Char) (hno : '<' ∉ pcs) :
    ∀ (front tail : List Char),
      occursAt ('<' :: pcs) front = false →
      ('<' :: pcs).isPrefixOf tail = true →
      findSubstrIdx ('<' :: pcs) (front ++ tail) = some front.length := by
  intro front
  induction front with
  | nil =>
    intro tail hfront htail
    cases tail with
    | nil => simp [List.isPrefixOf] at htail
    | cons t0 ts => simp [findSubstrIdx, htail]
  | cons x front ih =>
    intro tail hfront htail
    rw [occursAt, Bool.or_eq_false_iff] at hfront
    have hx : ('<' :: pcs).isPrefixOf (x :: (front ++ tail)) = false := by
      cases h' : ('<' :: pcs).isPrefixOf (x :: (front ++ tail)) with
      | false => rfl
      | true =>
        exfalso
        simp only [List.isPrefixOf, Bool.and_eq_true] at h'
        obtain ⟨hx', hpcs⟩ := h'
        by_cases hl : pcs.length ≤ front.length
        · have hpre : pcs.isPrefixOf front = true :=
            isPrefixOf_of_fits pcs front tail hpcs hl
          have hfull : ('<' :: pcs).isPrefixOf (x :: front) = true := by
            simp only [List.isPrefixOf, Bool.and_eq_true]
            exact ⟨hx', hpre⟩
          rw [hfront.1] at hfull
          cases hfull
        · cases tail with
          | nil => simp [List.isPrefixOf] at htail
          | cons t0 ts =>
            have ht0 : '<' = t0 := by
              simp only [List.isPrefixOf, Bool.and_eq_true] at htail
              exact eq_of_beq htail.1
            have hmem : t0 ∈ pcs :=
              mem_of_isPrefixOf_append pcs front t0 ts hpcs (by omega)
            rw [← ht0] at hmem
            exact hno hmem
    simp only [List.cons_append, findSubstrIdx, hx, List.append_eq]
    rw [ih tail hfront.2 htail]
    simp [List.length_cons]

/-- Locating the first occurrence of a character placed after a segment
that avoids it. -/
theorem findCharIdx_append (c : Char) :
    ∀ (attrs w : List Char), c ∉ attrs →
      findCharIdx c (attrs ++ c :: w) = some attrs.length := by
  intro attrs
  induction attrs with
  | nil => intro w _; simp [findCharIdx]
  | cons x xs ih =>
    intro w h
    have hx : ¬ (x = c) := fun he => h (he ▸ List.mem_cons_self x xs)
    simp only [List.cons_append, findCharIdx, if_neg hx, List.append_eq]
    rw [ih w (fun hm => h (List.mem_cons_of_mem x hm))]
    simp [List.length_cons]

/-- One regex step on a rendered non-nested block: the match starts at
the block's `<section`, the tag closes at the first `>`, the body ends
at the block's own `</section>`, and scanning continues on the rest of
the document. -/
theorem splitFirstSection_render (b : SecBlock) (bs : List SecBlock)
    (tail : List Char) (hb : goodBlock b = true) :
    splitFirstSection (renderBlocks (b :: bs) tail)
      = some (b.content, renderBlocks bs tail) := by
  obtain ⟨⟨⟨hpre, hgt⟩, hcopen⟩, hcclose⟩ :
      ((occursAt secOpen b.pre = false ∧ '>' ∉ b.attrs)
        ∧ occursAt secOpen b.content = false)
      ∧ occursAt secClose b.content = false := by
    simpa [goodBlock, Bool.and_eq_true, Bool.not_eq_true'] using hb
  have hrender : renderBlocks (b :: bs) tail
      = b.pre ++ (secOpen ++ (b.attrs ++ (('>' :: b.content)
          ++ (secClose ++ renderBlocks bs tail)))) := by
    rw [renderBlocks]
    simp only [List.append_assoc]
  have h1 : findSubstrIdx secOpen (renderBlocks (b :: bs) tail)
      = some b.pre.length := by
    rw [hrender]
    exact findSubstrIdx_append_boundary ['s', 'e', 'c', 't', 'i', 'o', 'n']
      (by decide) b.pre _ hpre (isPrefixOf_append_self secOpen _)
  have h2 : (renderBlocks (b :: bs) tail).drop (b.pre.length + 8)
      = b.attrs ++ '>' :: (b.content ++ (secClose ++ renderBlocks bs tail)) := by
    rw [hrender, List.drop_append 8]
    have hol : (secOpen ++ (b.attrs ++ (('>' :: b.content)
        ++ (secClose ++ renderBlocks bs tail)))).drop 8
        = b.attrs ++ (('>' :: b.content) ++ (secClose ++ renderBlocks bs tail)) :=
      List.drop_left secOpen _
    rw [hol, List.cons_append]
  have h3 : findCharIdx '>' (b.attrs ++ '>' :: (b.content
      ++ (secClose ++ renderBlocks bs tail))) = some b.attrs.length :=
    findCharIdx_append '>' b.attrs _ hgt
  have h4 : (b.attrs ++ '>' :: (b.content ++ (secClose
      ++ renderBlocks bs tail))).drop (b.attrs.length + 1)
      = b.content ++ (secClose ++ renderBlocks bs tail) := by
    rw [List.drop_append 1]
    rfl
  have h5 : findSubstrIdx secClose (b.content ++ (secClose
      ++ renderBlocks bs tail)) = some b.content.length :=
    findSubstrIdx_append_boundary ['/', 's', 'e', 'c', 't', 'i', 'o', 'n', '>']
      (by decide) b.content _ hcclose (isPrefixOf_append_self secClose _)
  have h6 : (b.content ++ (secClose ++ renderBlocks bs tail)).take b.content.length
      = b.content := List.take_left _ _
  have h7 : (b.content ++ (secClose ++ renderBlocks bs tail)).drop
      (b.content.length + 10) = renderBlocks bs tail := by
    rw [List.drop_append 10]
    exact List.drop_left secClose _
  simp only [splitFirstSection, h1, h2, h3, h4, h5, h6, h7]

/-- The extraction loop turns a rendered list of unambiguous blocks into
one slide per block, in order. -/
theorem extractLoop_renderBlocks :
    ∀ (bs : List SecBlock) (tail : List Char) (i : Nat),
      (∀ b ∈ bs, goodBlock b = true) →
      occursAt secOpen tail = false →
      extractLoop (renderBlocks bs tail) i = blockSlides bs i := by
  intro bs
  induction bs with
  | nil =>
    intro tail i hbs htail
    exact extractLoop_none tail i
      (by simp only [splitFirstSection, findSubstrIdx_eq_none secOpen tail htail])
  | cons b bs ih =>
    intro tail i hbs htail
    rw [extractLoop_some _ (b.content, renderBlocks bs tail) i
      (splitFirstSection_render b bs tail (hbs b (List.mem_cons_self b bs)))]
    show slideFromSection b.content i :: extractLoop (renderBlocks bs tail) (i + 1)
        = blockSlides (b :: bs) i
    rw [ih tail (i + 1) (fun b' hb' => hbs b' (List.mem_cons_of_mem b hb')) htail]
    rfl

/-- The expected slide list has one entry per block. -/
theorem blockSlides_length : ∀ (bs : List SecBlock) (i : Nat),
    (blockSlides bs i).length = bs.length := by
  intro bs
  induction bs with
  | nil => intro i; rfl
  | cons b bs ih => intro i; simp [blockSlides, ih]

/-- The expected slide list carries consecutive indices. -/
theorem blockSlides_indices : ∀ (bs : List SecBlock) (i : Nat),
    (blockSlides bs i).map (·.index) = (List.range' i bs.length).map Int.ofNat := by
  intro bs
  induction bs with
  | nil => intro i; rfl
  | cons b bs ih =>
    intro i
    have hidx : (slideFromSection b.content i).index = (i : Int) := rfl
    simp only [blockSlides, List.map_cons, hidx, List.length_cons, List.range'_succ, ih]
    rfl

/-- Component form of `extractLoop_some`. -/
theorem extractLoop_cons (s sc rest : List Char) (i : Nat)
    (h : splitFirstSection s = some (sc, rest)) :
    extractLoop s i = slideFromSection sc i :: extractLoop rest (i + 1) :=
  extractLoop_some s (sc, rest) i h

/-- C3 counterexample: a document with exactly one top-level section
element (holding two nested sections) makes the extractor return two
slide records, not one. -/
theorem extractSlides_topLevel_counterexample :
    specTopLevelSectionCount
        "<section><section>a</section><section>b</section></section>" = 1
    ∧ (extractSlidesFromHTML
        "<section><section>a</section><section>b</section></section>").length
        = 2 := by
  constructor
  · decide
  · have h1 : splitFirstSection
        ("<section><section>a</section><section>b</section></section>".toList)
        = some ("<section>a".toList, "<section>b</section></section>".toList) := by
      decide
    have h2 : splitFirstSection ("<section>b</section></section>".toList)
        = some ("b".toList, "</section>".toList) := by decide
    have h3 : splitFirstSection ("</section>".toList) = none := by decide
    show (extractLoop
        ("<section><section>a</section><section>b</section></section>".toList)
        0).length = 2
    rw [extractLoop_cons _ _ _ 0 h1, extractLoop_cons _ _ _ 1 h2,
      extractLoop_none _ 2 h3]
    rfl

/-- C3 (amended): for a document made of non-nested, unambiguous
section blocks (no section markers inside bodies, leading text or
trailing text), the extractor returns exactly one Slide per block, in
document order, with index fields 0 through k-1. -/
theorem extractSlides_nonNested (bs : List SecBlock) (tail : List Char)
    (hbs : ∀ b ∈ bs, goodBlock b = true)
    (htail : occursAt secOpen tail = false) :
    extractSlidesFromHTML (String.mk (renderBlocks bs tail)) = blockSlides bs 0
    ∧ (extractSlidesFromHTML (String.mk (renderBlocks bs tail))).length = bs.length
    ∧ (extractSlidesFromHTML (String.mk (renderBlocks bs tail))).map (·.index)
        = (List.range bs.length).map Int.ofNat := by
  have hmain : extractSlidesFromHTML (String.mk (renderBlocks bs tail))
      = blockSlides bs 0 := by
    show extractLoop (String.mk (renderBlocks bs tail)).toList 0 = blockSlides bs 0
    exact extractLoop_renderBlocks bs tail 0 hbs htail
  refine ⟨hmain, ?_, ?_⟩
  · rw [hmain, blockSlides_length]
  · rw [hmain, blockSlides_indices, List.range_eq_range']

/-- Witness for C3 at a concrete two-block document. -/
theorem extractSlides_nonNested_witness :
    goodBlock (SecBlock.mk "intro ".toList [] "<h2>A</h2>".toList) = true
    ∧ goodBlock (SecBlock.mk [] " class=x".toList "Bye".toList) = true
    ∧ occursAt secOpen "fin".toList = false
    ∧ (extractSlidesFromHTML (String.mk (renderBlocks
        [SecBlock.mk "intro ".toList [] "<h2>A</h2>".toList,
         SecBlock.mk [] " class=x".toList "Bye".toList] "fin".toList))).length = 2
    ∧ (extractSlidesFromHTML (String.mk (renderBlocks
        [SecBlock.mk "intro ".toList [] "<h2>A</h2>".toList,
         SecBlock.mk [] " class=x".toList "Bye".toList] "fin".toList))).map (·.index)
        = [0, 1] := by
  have h := extractSlides_nonNested
    [SecBlock.mk "intro ".toList [] "<h2>A</h2>".toList,
     SecBlock.mk [] " class=x".toList "Bye".toList] "fin".toList
    (by decide) (by decide)
  refine ⟨by decide, by decide, by decide, ?_, ?_⟩
  · rw [h.2.1]
    rfl
  · rw [h.2.2]
    decide

/-- The title regex cannot match at a character other than `<`. -/
theorem matchHeadingAt_none_of_ne (c : Char) (u : List Char) (hc : ¬ c = '<') :
    matchHeadingAt (c :: u) = none := by
  unfold matchHeadingAt
  split
  · next d rest heq =>
    injection heq with h1 h2
    exact absurd h1 hc
  · rfl

/-- The closing-tag matcher cannot fire at a character other than `<`. -/
theorem closeHeadAt_none_of_ne (c : Char) (u : List Char) (hc : ¬ c = '<') :
    closeHeadAt (c :: u) = none := by
  unfold closeHeadAt
  split
  · next d rest heq =>
    injection heq with h1 h2
    exact absurd h1 hc
  · rfl

/-- Heading removal steps over a position where the title regex does
not match. -/
theorem removeHeadings_nil : removeHeadings [] = [] := by
  rw [removeHeadings.eq_def]

/-- Heading removal steps over a position where the title regex does
not match. -/
theorem removeHeadings_cons_none (c : Char) (rest : List Char)
    (h : matchHeadingAt (c :: rest) = none) :
    removeHeadings (c :: rest) = c :: removeHeadings rest := by
  rw [removeHeadings.eq_def]
  split
  · next heq => cases heq
  · next d rest' heq =>
    injection heq with h1 h2
    subst h1
    subst h2
    split
    · next r heq2 =>
      rw [h] at heq2
      cases heq2
    · rfl

/-- Heading removal drops a title-regex match and resumes after it. -/
theorem removeHeadings_cons_some (c : Char) (rest : List Char)
    (r : List Char × Nat) (h : matchHeadingAt (c :: rest) = some r) :
    removeHeadings (c :: rest) = removeHeadings ((c :: rest).drop r.2) := by
  rw [removeHeadings.eq_def]
  split
  · next heq => cases heq
  · next d rest' heq =>
    injection heq with h1 h2
    subst h1
    subst h2
    split
    · next r' heq2 =>
      rw [h] at heq2
      rcases Option.some.inj heq2 with rfl
      rfl
    · next heq2 =>
      rw [h] at heq2
      cases heq2

/-- The first-heading scan steps over a non-matching position. -/
theorem findFirstHeading_cons_none (c : Char) (rest : List Char)
    (h : matchHeadingAt (c :: rest) = none) :
    findFirstHeading (c :: rest) = findFirstHeading rest := by
  simp [findFirstHeading, h]

/-- The first-heading scan returns the captured text of a match. -/
theorem findFirstHeading_cons_some (c : Char) (rest : List Char)
    (r : List Char × Nat) (h : matchHeadingAt (c :: rest) = some r) :
    findFirstHeading (c :: rest) = some r.1 := by
  simp [findFirstHeading, h]

/-- Scanning past a segment without `<`: the heading scan and heading
removal both pass it through unchanged. -/
theorem headingScan_skip (X : List Char) :
    ∀ a : List Char, '<' ∉ a →
      removeHeadings (a ++ X) = a ++ removeHeadings X
      ∧ findFirstHeading (a ++ X) = findFirstHeading X := by
  intro a
  induction a with
  | nil => intro _; exact ⟨rfl, rfl⟩
  | cons c a' ih =>
    intro ha
    have hc : ¬ c = '<' := fun he => ha (he ▸ List.mem_cons_self c a')
    have ha' : '<' ∉ a' := fun hm => ha (List.mem_cons_of_mem c hm)
    have hm : matchHeadingAt (c :: (a' ++ X)) = none :=
      matchHeadingAt_none_of_ne c _ hc
    constructor
    · rw [List.cons_append, removeHeadings_cons_none c _ hm, (ih ha').1,
        List.cons_append]
    · rw [List.cons_append, findFirstHeading_cons_none c _ hm, (ih ha').2]

/-- A list without a heading match anywhere is left unchanged by
heading removal, and the first-heading scan fails on it. -/
theorem headingScan_none :
    ∀ s : List Char, hasHeadingMatchIn s = false →
      removeHeadings s = s ∧ findFirstHeading s = none := by
  intro s
  induction s with
  | nil => intro _; exact ⟨removeHeadings_nil, rfl⟩
  | cons c rest ih =>
    intro h
    rw [hasHeadingMatchIn, Bool.or_eq_false_iff] at h
    have hm : matchHeadingAt (c :: rest) = none := by
      cases hv : matchHeadingAt (c :: rest) with
      | none => rfl
      | some r => rw [hv] at h; simp at h
    constructor
    · rw [removeHeadings_cons_none c rest hm, (ih h.2).1]
    · rw [findFirstHeading_cons_none c rest hm, (ih h.2).2]

/-- Tag stripping is the identity on a segment without `<`. -/
theorem stripTagsWith_nil (repl : List Char) : stripTagsWith repl [] = [] := by
  rw [stripTagsWith.eq_def]

/-- Tag stripping is the identity on a segment without `<`. -/
theorem stripTagsWith_no_lt (repl : List Char) :
    ∀ u : List Char, '<' ∉ u → stripTagsWith repl u = u := by
  intro u
  induction u with
  | nil => intro _; exact stripTagsWith_nil repl
  | cons c u' ih =>
    intro hu
    have hc : ¬ c = '<' := fun he => hu (he ▸ List.mem_cons_self c u')
    rw [stripTagsWith.eq_def]
    split
    · next heq => cases heq
    · next rest heq =>
      injection heq with h1 h2
      exact absurd h1 hc
    · next c' rest heq =>
      injection heq with h1 h2
      subst h1
      subst h2
      rw [ih (fun hm => hu (List.mem_cons_of_mem c hm))]

/-- The lazy title body scan walks through `<`-free, terminator-free
text and stops at the closing tag, consuming the text plus the
5-character closing tag. -/
theorem lazyScan_through (d' : Char) (hd' : headingDigit d' = true)
    (b : List Char) :
    ∀ (t : List Char) (acc : List Char) (n : Nat), '<' ∉ t →
      (∀ c ∈ t, lineTerminator c = false) →
      lazyScanHeading acc n (t ++ ('<' :: '/' :: 'h' :: d' :: '>' :: b))
        = some (acc.reverse ++ t, n + (t.length + 5)) := by
  intro t
  induction t with
  | nil =>
    intro acc n _ _
    show lazyScanHeading acc n ('<' :: '/' :: 'h' :: d' :: '>' :: b) = _
    simp [lazyScanHeading, closeHeadAt, hd']
  | cons c t' ih =>
    intro acc n hlt hnl
    have hc : ¬ c = '<' := fun he => hlt (he ▸ List.mem_cons_self c t')
    have hcl : closeHeadAt (c :: (t' ++ ('<' :: '/' :: 'h' :: d' :: '>' :: b)))
        = none := closeHeadAt_none_of_ne c _ hc
    have hnlc : lineTerminator c = false := hnl c (List.mem_cons_self c t')
    rw [List.cons_append]
    rw [show lazyScanHeading acc n
        (c :: (t' ++ ('<' :: '/' :: 'h' :: d' :: '>' :: b)))
        = lazyScanHeading (c :: acc) (n + 1)
            (t' ++ ('<' :: '/' :: 'h' :: d' :: '>' :: b)) from by
      simp [lazyScanHeading, hcl, hnlc]]
    rw [ih (c :: acc) (n + 1) (fun hm => hlt (List.mem_cons_of_mem c hm))
      (fun x hx => hnl x (List.mem_cons_of_mem c hx))]
    simp only [List.reverse_cons, List.append_assoc, List.singleton_append,
      List.length_cons, Option.some.injEq, Prod.mk.injEq, true_and]
    omega

/-- The title regex matched at a heading with unambiguous attributes,
`<`-free single-line body text and a closing `</h[1-3]>` tag: it
captures exactly the body text. -/
theorem matchHeadingAt_heading (d : Char) (hd : headingDigit d = true)
    (attrs : List Char) (hattrs : '>' ∉ attrs)
    (t : List Char) (hlt : '<' ∉ t)
    (hnl : ∀ c ∈ t, lineTerminator c = false)
    (d' : Char) (hd' : headingDigit d' = true) (b : List Char) :
    matchHeadingAt ('<' :: 'h' :: d ::
        (attrs ++ '>' :: (t ++ ('<' :: '/' :: 'h' :: d' :: '>' :: b))))
      = some (t, 3 + (attrs.length + 1) + (t.length + 5)) := by
  have hfind : findCharIdx '>'
      (attrs ++ '>' :: (t ++ ('<' :: '/' :: 'h' :: d' :: '>' :: b)))
      = some attrs.length := findCharIdx_append '>' attrs _ hattrs
  have hdrop : (attrs ++ '>' :: (t ++ ('<' :: '/' :: 'h' :: d' :: '>' :: b))).drop
      (attrs.length + 1) = t ++ ('<' :: '/' :: 'h' :: d' :: '>' :: b) := by
    rw [List.drop_append 1]
    rfl
  have hlazy := lazyScan_through d' hd' b t [] 0 hlt hnl
  simp only [matchHeadingAt, hd, if_true, hfind, hdrop, hlazy,
    List.reverse_nil, List.nil_append, Nat.zero_add]

/-- Dropping three leading characters. -/
theorem drop_cons3 (c1 c2 c3 : Char) (x : List Char) (m : Nat) :
    (c1 :: c2 :: c3 :: x).drop (m + 3) = x.drop m := by
  rw [show m + 3 = m + 1 + 1 + 1 from by omega]
  rw [List.drop_succ_cons, List.drop_succ_cons, List.drop_succ_cons]

/-- Dropping the whole heading match from the section body leaves the
text after the closing tag. -/
theorem drop_heading_match (d : Char) (attrs t : List Char) (d' : Char)
    (b : List Char) :
    ('<' :: 'h' :: d ::
        (attrs ++ '>' :: (t ++ ('<' :: '/' :: 'h' :: d' :: '>' :: b)))).drop
      (3 + (attrs.length + 1) + (t.length + 5)) = b := by
  rw [show 3 + (attrs.length + 1) + (t.length + 5)
      = (attrs.length + (1 + (t.length + 5))) + 3 from by omega]
  rw [drop_cons3]
  rw [List.drop_append (1 + (t.length + 5))]
  rw [show 1 + (t.length + 5) = (t.length + 5) + 1 from by omega]
  rw [List.drop_succ_cons]
  rw [List.drop_append 5]
  rfl

/-- Component form of `removeHeadings_cons_some`. -/
theorem removeHeadings_cons_some2 (c : Char) (rest : List Char)
    (t : List Char) (L : Nat) (h : matchHeadingAt (c :: rest) = some (t, L)) :
    removeHeadings (c :: rest) = removeHeadings ((c :: rest).drop L) := by
  simpa using removeHeadings_cons_some c rest (t, L) h

/-- Component form of `findFirstHeading_cons_some`. -/
theorem findFirstHeading_cons_some2 (c : Char) (rest : List Char)
    (t : List Char) (L : Nat) (h : matchHeadingAt (c :: rest) = some (t, L)) :
    findFirstHeading (c :: rest) = some t := by
  simpa using findFirstHeading_cons_some c rest (t, L) h

/-- C4 (amended): the extractor's title selection uses the first
`h1`-`h3` heading only (the closing tag digit may differ from the
opening one), with tags stripped from the captured text; when no such
heading matches, the title defaults to `"Slide {n}"` (never
`"Untitled Slide"`).  The matched heading is removed before the body
content is extracted as plain text with tags replaced by spaces and
whitespace collapsed and trimmed.  First part: a section whose `<`-free
leading text is followed by an `<h[1-3] …>` heading with single-line
body and a `</h[1-3]>` closing tag, followed by heading-free trailing
markup.  Second part: a section with no heading match at all. -/
theorem slideFromSection_title_content :
    (∀ (a : List Char) (d : Char) (attrs t : List Char) (d' : Char)
        (b : List Char) (idx : Nat),
      '<' ∉ a → headingDigit d = true → '>' ∉ attrs → '<' ∉ t →
      (∀ c ∈ t, lineTerminator c = false) → headingDigit d' = true →
      hasHeadingMatchIn b = false →
      (slideFromSection (a ++ ('<' :: 'h' :: d ::
          (attrs ++ '>' :: (t ++ ('<' :: '/' :: 'h' :: d' :: '>' :: b))))) idx).title
          = String.mk (stripTagsWith [] t)
        ∧ (slideFromSection (a ++ ('<' :: 'h' :: d ::
            (attrs ++ '>' :: (t ++ ('<' :: '/' :: 'h' :: d' :: '>' :: b))))) idx).content
          = String.mk (jsTrim (collapseWs (stripTagsWith [' '] (a ++ b)))))
    ∧ (∀ (s : List Char) (idx : Nat), hasHeadingMatchIn s = false →
      (slideFromSection s idx).title = "Slide " ++ toString (idx + 1)
        ∧ (slideFromSection s idx).content
          = String.mk (jsTrim (collapseWs (stripTagsWith [' '] s)))) := by
  constructor
  · intro a d attrs t d' b idx hA hd hattrs hlt hnl hd' hb
    have hmatch := matchHeadingAt_heading d hd attrs hattrs t hlt hnl d' hd' b
    have hff : findFirstHeading (a ++ ('<' :: 'h' :: d ::
        (attrs ++ '>' :: (t ++ ('<' :: '/' :: 'h' :: d' :: '>' :: b)))))
        = some t := by
      rw [(headingScan_skip _ a hA).2]
      exact findFirstHeading_cons_some2 '<' _ t _ hmatch
    have hrm : removeHeadings (a ++ ('<' :: 'h' :: d ::
        (attrs ++ '>' :: (t ++ ('<' :: '/' :: 'h' :: d' :: '>' :: b)))))
        = a ++ b := by
      rw [(headingScan_skip _ a hA).1]
      rw [removeHeadings_cons_some2 '<' _ t _ hmatch]
      rw [drop_heading_match d attrs t d' b]
      rw [(headingScan_none b hb).1]
    constructor
    · simp only [slideFromSection, hff]
    · simp only [slideFromSection, hrm]
  · intro s idx hs
    have h1 := headingScan_none s hs
    constructor
    · simp only [slideFromSection, h1.2]
      rfl
    · simp only [slideFromSection, h1.1]

/-- C4 counterexample: a section whose only heading is an `<h4>` gets
the fallback title "Slide 1", although an h1-h6 heading with text
"Big Title" is present. -/
theorem extract_h4_title_counterexample :
    (extractSlidesFromHTML
        "<section><h4>Big Title</h4><p>stuff</p></section>").map (·.title)
      = ["Slide 1"]
    ∧ occursAt "<h4>Big Title</h4>".toList
        "<section><h4>Big Title</h4><p>stuff</p></section>".toList = true
    ∧ ("Slide 1" : String) ≠ "Big Title" := by
  refine ⟨?_, by decide, by decide⟩
  have h1 : splitFirstSection
      ("<section><h4>Big Title</h4><p>stuff</p></section>".toList)
      = some ("<h4>Big Title</h4><p>stuff</p>".toList, []) := by decide
  show (extractLoop
      ("<section><h4>Big Title</h4><p>stuff</p></section>".toList) 0).map
      (·.title) = ["Slide 1"]
  rw [extractLoop_cons _ _ _ 0 h1, extractLoop_none _ 1 (by decide)]
  decide

/-- Witness for C4: a section starting with `<`-free text and an `<h2>`
heading takes that heading's text as its title, and a heading-free
section falls back to "Slide 1". -/
theorem slideFromSection_title_content_witness :
    ('<' ∉ "Hi ".toList)
    ∧ hasHeadingMatchIn "<p>x</p>".toList = false
    ∧ (slideFromSection ("Hi ".toList ++ ('<' :: 'h' :: '2' ::
        ([] ++ '>' :: ("Big Title".toList
          ++ ('<' :: '/' :: 'h' :: '3' :: '>' :: "<p>x</p>".toList))))) 0).title
        = String.mk (stripTagsWith [] "Big Title".toList)
    ∧ hasHeadingMatchIn "<p>No heading</p>".toList = false
    ∧ (slideFromSection "<p>No heading</p>".toList 0).title = "Slide 1" := by
  have h := slideFromSection_title_content
  refine ⟨by decide, by decide, ?_, by decide, ?_⟩
  · exact (h.1 "Hi ".toList '2' [] "Big Title".toList '3' "<p>x</p>".toList 0
      (by decide) (by decide) (by decide) (by decide) (by decide) (by decide)
      (by decide)).1
  · exact (h.2 "<p>No heading</p>".toList 0 (by decide)).1
